import Mathlib

/-!
Shallow embedding of the buildpost commit-to-post pipeline.

The definitions below are transcribed from `buildpost/core/git_parser.py`
(`_parse_commit`, `_create_diff_summary`, `get_commit_range`) and from the
platform/hashtag handling in `buildpost/cli.py`.  Components whose source
module is absent from the repository snapshot (`PromptEngine` lookups,
`format_post`) are modelled from the specification and marked as such in
their doc comments.
-/

/-- Last index of character `c` in `l`, or `-1` when absent
(Python `str.rfind`). -/
def rfindChar (c : Char) (l : List Char) : Int :=
  (l.foldl
    (fun (acc : Int × Int) ch => (acc.1 + 1, if ch = c then acc.1 else acc.2))
    ((0 : Int), (-1 : Int))).2

/-- Extension part of `os.path.splitext` (posix flavour): the substring from
the last `.` of the basename onwards, unless every character of the basename
before that dot is itself a dot (so `".gitignore"` has no extension). -/
def splitext_ext (p : String) : String :=
  let l := p.data
  let sepIndex := rfindChar '/' l
  let dotIndex := rfindChar '.' l
  if sepIndex < dotIndex then
    if (List.range' (sepIndex + 1).toNat (dotIndex.toNat - (sepIndex + 1).toNat)).any
        (fun i => l.getD i ' ' ≠ '.') then
      String.mk (l.drop dotIndex.toNat)
    else ""
  else ""

/-- The grouping key used by `_create_diff_summary`:
`ext = os.path.splitext(file_path)[1] or 'no extension'`. -/
def extCategory (p : String) : String :=
  let e := splitext_ext p
  if e = "" then "no extension" else e

/-- One step of `file_types[ext] = file_types.get(ext, 0) + 1` on an
insertion-ordered association list (the Python dict). -/
def addExt : List (String × Nat) → String → List (String × Nat)
  | [], e => [(e, 1)]
  | q :: qs, e => if q.1 = e then (q.1, q.2 + 1) :: qs else q :: addExt qs e

/-- The `file_types` dict of `_create_diff_summary`, keys in first-encounter
order. -/
def buildFileTypes (files : List String) : List (String × Nat) :=
  files.foldl (fun m f => addExt m (extCategory f)) []

/-- Stable insertion for descending-count order: the new element goes in
front of the first entry whose count is `≤` its own.  This realises Python's
`sorted(..., key=lambda x: x[1], reverse=True)`, which is stable. -/
def insertDesc (x : String × Nat) : List (String × Nat) → List (String × Nat)
  | [] => [x]
  | y :: ys => if y.2 ≤ x.2 then x :: y :: ys else y :: insertDesc x ys

/-- Stable sort by descending count. -/
def sortByCountDesc (l : List (String × Nat)) : List (String × Nat) :=
  l.foldr insertDesc []

/-- Python `sep.join(parts)`. -/
def joinSep (sep : String) : List String → String
  | [] => ""
  | [x] => x
  | x :: y :: ys => x ++ sep ++ joinSep sep (y :: ys)

/-- The clause `f"{file_count} file{'s' if file_count != 1 else ''} changed"`. -/
def fileCountClause (n : Nat) : String :=
  Nat.repr n ++ " file" ++ (if n ≠ 1 then "s" else "") ++ " changed"

/-- Rendering `f"{ext} ({count})"`. -/
def typeItem (q : String × Nat) : String :=
  q.1 ++ " (" ++ Nat.repr q.2 ++ ")"

/-- The `top_types` selection of `_create_diff_summary`: sort by descending
count and keep the first three. -/
def top_types (file_types : List (String × Nat)) : List (String × Nat) :=
  (sortByCountDesc file_types).take 3

/-- The clause `f"types: {type_str}"`. -/
def typesClause (file_types : List (String × Nat)) : String :=
  "types: " ++ joinSep ", " ((top_types file_types).map typeItem)

/-- The `+ins -del` clause, each part present only when nonzero. -/
def changesClause (insertions deletions : Nat) : String :=
  joinSep " "
    ((if insertions ≠ 0 then ["+" ++ Nat.repr insertions] else []) ++
     (if deletions ≠ 0 then ["-" ++ Nat.repr deletions] else []))

/-- The `parts` list assembled by `_create_diff_summary`. -/
def diffSummaryParts (files : List String) (insertions deletions : Nat) :
    List String :=
  [fileCountClause files.length] ++
  (if buildFileTypes files ≠ [] then [typesClause (buildFileTypes files)] else []) ++
  (if insertions ≠ 0 ∨ deletions ≠ 0 then [changesClause insertions deletions] else [])

/-- `GitParser._create_diff_summary`. -/
def create_diff_summary (files : List String) (insertions deletions : Nat) :
    String :=
  joinSep " | " (diffSummaryParts files insertions deletions)

/-- One entry of `parent.diff(commit)`: the before-path and after-path, each
possibly absent. -/
structure DiffEntry where
  a_path : Option String
  b_path : Option String

/-- Python truthiness of an optional path (`if diff.a_path:`): present and
non-empty. -/
def pathTruthy : Option String → Bool
  | none => false
  | some s => !(s = "")

/-- The path a diff entry contributes to `files_changed` in `_parse_commit`:
`a_path` when truthy, else `b_path` when truthy, else nothing. -/
def diffContribution (d : DiffEntry) : Option String :=
  if pathTruthy d.a_path then d.a_path
  else if pathTruthy d.b_path then d.b_path
  else none

/-- The parts of `commit.stats` that `_parse_commit` reads: the ordered keys
of the per-file table and the aggregate totals. -/
structure GitStats where
  filesKeys : List String
  insertions : Nat
  deletions : Nat

/-- The raw commit data `_parse_commit` consumes.  `parents` is the number of
parent commits; `diffs` is `parent.diff(commit)` against the first parent
(meaningful only when `parents ≠ 0`). -/
structure Commit where
  hexsha : String
  messageRaw : String
  authorName : String
  authorEmail : String
  dateStr : String
  parents : Nat
  diffs : List DiffEntry
  stats : GitStats

/-- The `CommitInfo` dataclass. -/
structure CommitInfo where
  hash : String
  short_hash : String
  message : String
  author : String
  date : String
  files_changed : List String
  diff_summary : String
  insertions : Nat
  deletions : Nat

/-- `GitParser._parse_commit`. -/
def parse_commit (c : Commit) : CommitInfo :=
  let files_changed :=
    if c.parents ≠ 0 then c.diffs.filterMap diffContribution
    else c.stats.filesKeys
  { hash := c.hexsha
    short_hash := String.mk (c.hexsha.data.take 7)
    message := c.messageRaw.trim
    author := c.authorName ++ " <" ++ c.authorEmail ++ ">"
    date := c.dateStr
    files_changed := files_changed
    diff_summary := create_diff_summary files_changed c.stats.insertions c.stats.deletions
    insertions := c.stats.insertions
    deletions := c.stats.deletions }

/-- `GitParser.get_commit_range`, with the commits the provider resolved for
the range expression taken as input. -/
def get_commit_range (resolved : List Commit) : List CommitInfo :=
  resolved.map parse_commit

/-- The range branch of `cli`: abort when the resolved range is empty,
otherwise run the pipeline on `commits[0]` only. -/
def range_mode_select (commits : List CommitInfo) : Except String CommitInfo :=
  match commits with
  | [] => Except.error "No commits found in range."
  | c :: _ => Except.ok c

/-- A platform profile as stored by the template source: `max_length` and the
hashtag list. -/
structure PlatformProfileCfg where
  max_length : Nat
  hashtags : List String
deriving DecidableEq

/-- The platform-related contents of the prompt-template store: named
profiles in definition order, and the global hashtag cap. -/
structure PromptEngineData where
  platforms : List (String × PlatformProfileCfg)
  max_hashtags : Nat

/-- Modelled from the spec: `PromptEngine.get_platform` (the `prompt_engine`
module is absent from the snapshot).  Lookup-by-name that fails with a
"not found" condition when the platform has no profile. -/
def get_platform (e : PromptEngineData) (name : String) :
    Option PlatformProfileCfg :=
  (e.platforms.find? (fun q => q.1 = name)).map (fun q => q.2)

/-- Modelled from the spec: `PromptEngine.get_platform_hashtags` (module
absent from the snapshot).  Lookup of a platform's hashtag list. -/
def get_platform_hashtags (e : PromptEngineData) (name : String) :
    List String :=
  match get_platform e name with
  | some cfg => cfg.hashtags
  | none => []

/-- The platform-resolution fragment of `cli` (lines 134-149): look the
platform up; on success optionally fetch hashtags and truncate them to the
global cap (an empty list becomes `none`); on a "not found" condition fall
back to a generic profile with `max_length = 500` and no hashtags. -/
def select_platform (e : PromptEngineData) (target : String)
    (includeHashtags : Bool) : PlatformProfileCfg × Option (List String) :=
  match get_platform e target with
  | some cfg =>
    let hashtags : Option (List String) :=
      if includeHashtags then
        let hs := get_platform_hashtags e target
        if hs ≠ [] then some (hs.take e.max_hashtags) else none
      else none
    (cfg, hashtags)
  | none => ({ max_length := 500, hashtags := [] }, none)

/-- Modelled from the spec: `format_post` (the `utils/formatters` module is
absent from the snapshot).  Appends the hashtags, space-joined and each
`#`-prefixed, after a separating blank line; never truncates the text. -/
def format_post (content : String) (platform : String)
    (cfg : PlatformProfileCfg) (hashtags : Option (List String)) : String :=
  match hashtags with
  | some hs => content ++ "\n\n" ++ joinSep " " (hs.map (fun h => "#" ++ h))
  | none => content

/-- A sample non-root commit, used to witness the universal theorems. -/
def sampleCommit : Commit where
  hexsha := "0123456789abcdef0123456789abcdef01234567"
  messageRaw := "Fix bug\n"
  authorName := "Ada"
  authorEmail := "ada@example.com"
  dateStr := "2026-01-02 03:04:05"
  parents := 1
  diffs := [⟨some "a.py", none⟩, ⟨none, some "b.py"⟩]
  stats := ⟨["a.py", "b.py"], 10, 2⟩

/-- A sample root commit (no parents). -/
def sampleRootCommit : Commit where
  hexsha := "fedcba9876543210fedcba9876543210fedcba98"
  messageRaw := "Initial commit"
  authorName := "Ada"
  authorEmail := "ada@example.com"
  dateStr := "2026-01-01 00:00:00"
  parents := 0
  diffs := []
  stats := ⟨["README.md", "setup.py"], 5, 0⟩

/-- A sample template store with one platform and a global cap of 2. -/
def sampleEngine : PromptEngineData where
  platforms := [("twitter", ⟨280, ["buildinpublic", "opensource", "devlog"]⟩)]
  max_hashtags := 2

/-! ### Helper lemmas -/

theorem joinSep_cons_of_ne (sep x : String) (ys : List String) (h : ys ≠ []) :
    joinSep sep (x :: ys) = x ++ sep ++ joinSep sep ys := by
  cases ys with
  | nil => exact absurd rfl h
  | cons y ys => rfl

theorem joinSep_head_data (sep x : String) (rest : List String) :
    ∃ t, (joinSep sep (x :: rest)).data = x.data ++ t := by
  cases rest with
  | nil => exact ⟨[], by simp [joinSep]⟩
  | cons y ys =>
    refine ⟨sep.data ++ (joinSep sep (y :: ys)).data, ?_⟩
    show (x ++ sep ++ joinSep sep (y :: ys)).data = _
    simp [String.data_append]

theorem joinSep_mem_data (sep x : String) (parts : List String)
    (hx : x ∈ parts) :
    ∃ s t, (joinSep sep parts).data = s ++ (x.data ++ t) := by
  induction parts with
  | nil => cases hx
  | cons p ps ih =>
    rcases List.mem_cons.mp hx with h | h
    · subst h
      obtain ⟨t, ht⟩ := joinSep_head_data sep x ps
      exact ⟨[], t, by simpa using ht⟩
    · have hps : ps ≠ [] := by
        intro hn
        subst hn
        cases h
      obtain ⟨s, t, hst⟩ := ih h
      refine ⟨p.data ++ sep.data ++ s, t, ?_⟩
      rw [joinSep_cons_of_ne sep p ps hps]
      simp [String.data_append, hst]

theorem mem_data_joinSep (sep : String) (parts : List String) (c : Char)
    (hc : c ∈ (joinSep sep parts).data) :
    c ∈ sep.data ∨ ∃ x ∈ parts, c ∈ x.data := by
  induction parts with
  | nil => simp [joinSep] at hc
  | cons p ps ih =>
    cases ps with
    | nil =>
      exact Or.inr ⟨p, by simp, hc⟩
    | cons q qs =>
      rw [joinSep_cons_of_ne sep p (q :: qs) (by simp)] at hc
      simp only [String.data_append, List.mem_append] at hc
      rcases hc with (h | h) | h
      · exact Or.inr ⟨p, by simp, h⟩
      · exact Or.inl h
      · rcases ih h with h' | ⟨x, hxmem, hcx⟩
        · exact Or.inl h'
        · exact Or.inr ⟨x, by simp [hxmem], hcx⟩

theorem digitChar_isDigit (n : Nat) (h : n < 10) :
    (Nat.digitChar n).isDigit = true := by
  interval_cases n <;> decide

theorem toDigitsCore_digits (f : Nat) :
    ∀ (n : Nat) (acc : List Char), (∀ c ∈ acc, c.isDigit = true) →
      ∀ c ∈ Nat.toDigitsCore 10 f n acc, c.isDigit = true := by
  induction f with
  | zero =>
    intro n acc hacc c hc
    simp only [Nat.toDigitsCore] at hc
    exact hacc c hc
  | succ f ih =>
    intro n acc hacc c hc
    simp only [Nat.toDigitsCore] at hc
    have hcons : ∀ d ∈ Nat.digitChar (n % 10) :: acc, d.isDigit = true := by
      intro d hd
      rcases List.mem_cons.mp hd with h | h
      · subst h
        exact digitChar_isDigit _ (Nat.mod_lt _ (by decide))
      · exact hacc d h
    by_cases h10 : n / 10 = 0
    · rw [if_pos h10] at hc
      exact hcons c hc
    · rw [if_neg h10] at hc
      exact ih (n / 10) _ hcons c hc

theorem repr_data_digits (n : Nat) :
    ∀ c ∈ (Nat.repr n).data, c.isDigit = true := by
  intro c hc
  have hrepr : (Nat.repr n).data = Nat.toDigitsCore 10 (n + 1) n [] := rfl
  rw [hrepr] at hc
  exact toDigitsCore_digits (n + 1) n [] (by intro d hd; cases hd) c hc

theorem repr_no_colon (n : Nat) : ∀ c ∈ (Nat.repr n).data, c ≠ ':' := by
  intro c hc he
  subst he
  exact absurd (repr_data_digits n ':' hc) (by decide)

theorem changesClause_no_colon (i d : Nat) :
    ∀ c ∈ (changesClause i d).data, c ≠ ':' := by
  intro c hc he
  subst he
  unfold changesClause at hc
  rcases mem_data_joinSep _ _ _ hc with h | ⟨x, hx, hcx⟩
  · revert h
    decide
  · rcases List.mem_append.mp hx with h | h
    · by_cases hi : i ≠ 0
      · rw [if_pos hi] at h
        rcases List.mem_cons.mp h with h | h
        · subst h
          rw [String.data_append] at hcx
          rcases List.mem_append.mp hcx with h' | h'
          · revert h'
            decide
          · exact repr_no_colon i ':' h' rfl
        · cases h
      · rw [if_neg hi] at h
        cases h
    · by_cases hd : d ≠ 0
      · rw [if_pos hd] at h
        rcases List.mem_cons.mp h with h | h
        · subst h
          rw [String.data_append] at hcx
          rcases List.mem_append.mp hcx with h' | h'
          · revert h'
            decide
          · exact repr_no_colon d ':' h' rfl
        · cases h
      · rw [if_neg hd] at h
        cases h

theorem summary_empty_no_colon (i d : Nat) :
    ∀ c ∈ (create_diff_summary [] i d).data, c ≠ ':' := by
  intro c hc he
  subst he
  by_cases hid : i ≠ 0 ∨ d ≠ 0
  · have hparts : diffSummaryParts [] i d =
        [fileCountClause 0, changesClause i d] := by
      unfold diffSummaryParts
      rw [if_neg (fun h => h rfl), if_pos hid]
      rfl
    unfold create_diff_summary at hc
    rw [hparts] at hc
    have hjoin : joinSep " | " [fileCountClause 0, changesClause i d] =
        fileCountClause 0 ++ " | " ++ changesClause i d := rfl
    rw [hjoin, String.data_append, String.data_append] at hc
    rcases List.mem_append.mp hc with h | h
    · rcases List.mem_append.mp h with h' | h'
      · revert h'
        decide
      · revert h'
        decide
    · exact changesClause_no_colon i d ':' h rfl
  · have hparts : diffSummaryParts [] i d = [fileCountClause 0] := by
      unfold diffSummaryParts
      rw [if_neg (fun h => h rfl), if_neg hid]
      rfl
    unfold create_diff_summary at hc
    rw [hparts] at hc
    have hjoin : joinSep " | " [fileCountClause 0] = fileCountClause 0 := rfl
    rw [hjoin] at hc
    revert hc
    decide

theorem sum_take_le (l : List Nat) (n : Nat) : (l.take n).sum ≤ l.sum := by
  induction l generalizing n with
  | nil => simp
  | cons x xs ih =>
    cases n with
    | zero => simp
    | succ n => simpa using Nat.add_le_add_left (ih n) x

theorem sum_map_insertDesc (x : String × Nat) (l : List (String × Nat)) :
    ((insertDesc x l).map (fun q => q.2)).sum =
      x.2 + (l.map (fun q => q.2)).sum := by
  induction l with
  | nil => simp [insertDesc]
  | cons y ys ih =>
    by_cases h : y.2 ≤ x.2
    · simp [insertDesc, h]
    · simp only [insertDesc, if_neg h, List.map_cons, List.sum_cons, ih]
      omega

theorem sum_map_sortByCountDesc (l : List (String × Nat)) :
    ((sortByCountDesc l).map (fun q => q.2)).sum =
      (l.map (fun q => q.2)).sum := by
  induction l with
  | nil => rfl
  | cons x xs ih =>
    have hstep : sortByCountDesc (x :: xs) = insertDesc x (sortByCountDesc xs) := rfl
    rw [hstep, sum_map_insertDesc, ih]
    simp

theorem sum_map_addExt (m : List (String × Nat)) (e : String) :
    ((addExt m e).map (fun q => q.2)).sum = (m.map (fun q => q.2)).sum + 1 := by
  induction m with
  | nil => simp [addExt]
  | cons q qs ih =>
    by_cases h : q.1 = e
    · simp only [addExt, if_pos h, List.map_cons, List.sum_cons]
      omega
    · simp only [addExt, if_neg h, List.map_cons, List.sum_cons, ih]
      omega

theorem sum_map_buildFileTypes (files : List String) :
    ((buildFileTypes files).map (fun q => q.2)).sum = files.length := by
  suffices h : ∀ m : List (String × Nat),
      ((files.foldl (fun m f => addExt m (extCategory f)) m).map
        (fun q => q.2)).sum = (m.map (fun q => q.2)).sum + files.length by
    simpa using h []
  induction files with
  | nil => intro m; simp
  | cons f fs ih =>
    intro m
    simp only [List.foldl_cons, List.length_cons, ih, sum_map_addExt]
    omega

theorem mem_insertDesc (x a : String × Nat) (l : List (String × Nat))
    (h : a ∈ insertDesc x l) : a = x ∨ a ∈ l := by
  induction l with
  | nil => simpa [insertDesc] using h
  | cons y ys ih =>
    by_cases hc : y.2 ≤ x.2
    · rw [insertDesc, if_pos hc] at h
      simpa using List.mem_cons.mp h
    · rw [insertDesc, if_neg hc] at h
      rcases List.mem_cons.mp h with h' | h'
      · exact Or.inr (by simp [h'])
      · rcases ih h' with h'' | h''
        · exact Or.inl h''
        · exact Or.inr (by simp [h''])

theorem pairwise_insertDesc (x : String × Nat) (l : List (String × Nat))
    (h : l.Pairwise (fun a b => b.2 ≤ a.2)) :
    (insertDesc x l).Pairwise (fun a b => b.2 ≤ a.2) := by
  induction l with
  | nil => simp [insertDesc]
  | cons y ys ih =>
    rcases List.pairwise_cons.mp h with ⟨hy, hys⟩
    by_cases hc : y.2 ≤ x.2
    · rw [insertDesc, if_pos hc]
      refine List.pairwise_cons.mpr ⟨?_, h⟩
      intro b hb
      rcases List.mem_cons.mp hb with rfl | hb
      · exact hc
      · exact le_trans (hy b hb) hc
    · rw [insertDesc, if_neg hc]
      refine List.pairwise_cons.mpr ⟨?_, ih hys⟩
      intro b hb
      rcases mem_insertDesc x b ys hb with rfl | hb
      · omega
      · exact hy b hb

theorem pairwise_sortByCountDesc (l : List (String × Nat)) :
    (sortByCountDesc l).Pairwise (fun a b => b.2 ≤ a.2) := by
  induction l with
  | nil => simp [sortByCountDesc]
  | cons x xs ih => exact pairwise_insertDesc x (sortByCountDesc xs) ih

theorem filter_insertDesc (k : Nat) (x : String × Nat)
    (l : List (String × Nat)) :
    (insertDesc x l).filter (fun q => q.2 = k) =
      if x.2 = k then x :: l.filter (fun q => q.2 = k)
      else l.filter (fun q => q.2 = k) := by
  induction l with
  | nil => by_cases hx : x.2 = k <;> simp [insertDesc, hx]
  | cons y ys ih =>
    by_cases hc : y.2 ≤ x.2
    · rw [insertDesc, if_pos hc]
      by_cases hx : x.2 = k <;> simp [List.filter_cons, hx]
    · rw [insertDesc, if_neg hc]
      rw [List.filter_cons, List.filter_cons, ih]
      by_cases hx : x.2 = k
      · have hy : ¬(y.2 = k) := by omega
        simp [hx, hy]
      · by_cases hy : y.2 = k <;> simp [hx, hy]

theorem filter_sortByCountDesc (k : Nat) (l : List (String × Nat)) :
    (sortByCountDesc l).filter (fun q => q.2 = k) =
      l.filter (fun q => q.2 = k) := by
  induction l with
  | nil => rfl
  | cons x xs ih =>
    have hstep : sortByCountDesc (x :: xs) = insertDesc x (sortByCountDesc xs) := rfl
    rw [hstep, filter_insertDesc]
    by_cases hx : x.2 = k <;> simp [List.filter_cons, hx, ih]

theorem diffContribution_eq (d : DiffEntry)
    (h : pathTruthy d.a_path = true ∨ pathTruthy d.b_path = true) :
    diffContribution d = some (if pathTruthy d.a_path then d.a_path.getD ""
      else d.b_path.getD "") := by
  unfold diffContribution
  by_cases ha : pathTruthy d.a_path = true
  · rw [if_pos ha, if_pos ha]
    cases hpa : d.a_path with
    | none => rw [hpa] at ha; simp [pathTruthy] at ha
    | some s => simp [hpa]
  · have hb : pathTruthy d.b_path = true := by
      rcases h with h | h
      · exact absurd h ha
      · exact h
    rw [if_neg ha, if_neg ha, if_pos hb]
    cases hpb : d.b_path with
    | none => rw [hpb] at hb; simp [pathTruthy] at hb
    | some s => simp [hpb]

theorem filterMap_diffContribution (l : List DiffEntry)
    (hw : ∀ d ∈ l, pathTruthy d.a_path = true ∨ pathTruthy d.b_path = true) :
    l.filterMap diffContribution = l.map (fun d =>
      if pathTruthy d.a_path then d.a_path.getD "" else d.b_path.getD "") := by
  induction l with
  | nil => rfl
  | cons d ds ih =>
    rw [List.filterMap_cons, List.map_cons,
      diffContribution_eq d (hw d (by simp))]
    rw [ih (fun x hx => hw x (by simp [hx]))]

/-! ### Claim theorems -/

/-- Claim C1: for a commit with changed files `a.py`, `b.py`, `c.md` and
10 insertions, 2 deletions, `_create_diff_summary` yields exactly
`"3 files changed | types: .py (2), .md (1) | +10 -2"`. -/
theorem scenarioA_diff_summary :
    create_diff_summary ["a.py", "b.py", "c.md"] 10 2 =
      "3 files changed | types: .py (2), .md (1) | +10 -2" := by
  decide

/-- Claim C2: for a non-root commit whose diff entries each carry a truthy
before- or after-path, `files_changed` has one entry per diff entry, and each
diff entry contributes its before-path, or its after-path exactly when the
before-path is absent. -/
theorem nonroot_changed_files (c : Commit) (hp : c.parents ≠ 0)
    (hw : ∀ d ∈ c.diffs, pathTruthy d.a_path = true ∨ pathTruthy d.b_path = true) :
    (parse_commit c).files_changed.length = c.diffs.length ∧
    (parse_commit c).files_changed = c.diffs.map (fun d =>
      if pathTruthy d.a_path then d.a_path.getD "" else d.b_path.getD "") := by
  have hfc : (parse_commit c).files_changed = c.diffs.filterMap diffContribution := by
    simp [parse_commit, hp]
  rw [hfc, filterMap_diffContribution c.diffs hw]
  exact ⟨List.length_map _ _, rfl⟩

theorem nonroot_changed_files_witness :
    sampleCommit.parents ≠ 0 ∧
    ((parse_commit sampleCommit).files_changed.length = sampleCommit.diffs.length ∧
     (parse_commit sampleCommit).files_changed = sampleCommit.diffs.map (fun d =>
       if pathTruthy d.a_path then d.a_path.getD "" else d.b_path.getD "")) :=
  ⟨by decide, nonroot_changed_files sampleCommit (by decide) (by decide)⟩

/-- Claim C5: for a root commit `files_changed` is exactly the keys of the
commit's own file statistics, and for every commit the insertion/deletion
counts come from the commit's own aggregate statistics. -/
theorem root_files_and_stats (c : Commit) :
    (c.parents = 0 → (parse_commit c).files_changed = c.stats.filesKeys) ∧
    (parse_commit c).insertions = c.stats.insertions ∧
    (parse_commit c).deletions = c.stats.deletions := by
  refine ⟨fun h => ?_, rfl, rfl⟩
  simp [parse_commit, h]

theorem root_files_and_stats_witness :
    (sampleRootCommit.parents = 0 →
      (parse_commit sampleRootCommit).files_changed = sampleRootCommit.stats.filesKeys) ∧
    (parse_commit sampleRootCommit).insertions = sampleRootCommit.stats.insertions ∧
    (parse_commit sampleRootCommit).deletions = sampleRootCommit.stats.deletions :=
  root_files_and_stats sampleRootCommit

/-- Claim C8: a commit range resolving to a non-empty sequence runs the
pipeline on exactly the first resolved commit and ignores the rest; an empty
resolution aborts with an error. -/
theorem range_runs_first_commit_only (raw : List Commit) :
    (raw = [] → range_mode_select (get_commit_range raw) =
      Except.error "No commits found in range.") ∧
    (∀ c cs, raw = c :: cs → range_mode_select (get_commit_range raw) =
      Except.ok (parse_commit c)) := by
  constructor
  · intro h
    subst h
    rfl
  · intro c cs h
    subst h
    rfl

theorem range_runs_first_commit_only_witness :
    (([sampleCommit, sampleRootCommit] : List Commit) = [] →
      range_mode_select (get_commit_range [sampleCommit, sampleRootCommit]) =
        Except.error "No commits found in range.") ∧
    (∀ c cs, ([sampleCommit, sampleRootCommit] : List Commit) = c :: cs →
      range_mode_select (get_commit_range [sampleCommit, sampleRootCommit]) =
        Except.ok (parse_commit c)) :=
  range_runs_first_commit_only [sampleCommit, sampleRootCommit]

/-- Claim C9: `short_hash` is the first 7 characters of the full hash, hence
always one of its initial segments, for every commit. -/
theorem short_hash_first_seven (c : Commit) :
    (parse_commit c).short_hash.data = (parse_commit c).hash.data.take 7 ∧
    ∃ t, (parse_commit c).short_hash.data ++ t = (parse_commit c).hash.data :=
  ⟨rfl, ⟨c.hexsha.data.drop 7, List.take_append_drop 7 c.hexsha.data⟩⟩

theorem short_hash_first_seven_witness :
    (parse_commit sampleCommit).short_hash.data =
      (parse_commit sampleCommit).hash.data.take 7 ∧
    ∃ t, (parse_commit sampleCommit).short_hash.data ++ t =
      (parse_commit sampleCommit).hash.data :=
  short_hash_first_seven sampleCommit

/-- Claim C10: a dotfile such as `.gitignore` is grouped under the sentinel
`"no extension"` category even though its path contains a dot, and grouped
extension keys keep their leading dot (`".py"`, not `"py"`). -/
theorem dotfile_and_extension_keys :
    extCategory ".gitignore" = "no extension" ∧
    splitext_ext ".gitignore" = "" ∧
    extCategory "a.py" = ".py" ∧
    create_diff_summary [".gitignore"] 0 0 =
      "1 file changed | types: no extension (1)" ∧
    create_diff_summary ["a.py"] 0 0 = "1 file changed | types: .py (1)" := by
  decide

/-- Claim C6: a platform name with no profile never makes formatting fail:
the pipeline substitutes a generic profile with max length 500 and no
hashtags, and still produces a formatted post. -/
theorem unknown_platform_uses_generic (e : PromptEngineData) (target : String)
    (inc : Bool) (h : get_platform e target = none) :
    (select_platform e target inc).1.max_length = 500 ∧
    (select_platform e target inc).2 = none ∧
    ∀ content, format_post content target (select_platform e target inc).1
      (select_platform e target inc).2 = content := by
  refine ⟨?_, ?_, ?_⟩ <;> simp [select_platform, h, format_post]

theorem unknown_platform_uses_generic_witness :
    get_platform sampleEngine "mastodon" = none ∧
    ((select_platform sampleEngine "mastodon" true).1.max_length = 500 ∧
     (select_platform sampleEngine "mastodon" true).2 = none ∧
     ∀ content, format_post content "mastodon"
       (select_platform sampleEngine "mastodon" true).1
       (select_platform sampleEngine "mastodon" true).2 = content) :=
  ⟨by decide, unknown_platform_uses_generic sampleEngine "mastodon" true (by decide)⟩

/-- Claim C7: whenever hashtags are handed to post formatting, there are at
most `max_hashtags` of them and they form an initial segment, in defined
order, of the platform's hashtag list. -/
theorem hashtags_capped_initial_segment (e : PromptEngineData) (target : String)
    (inc : Bool) (hs : List String)
    (h : (select_platform e target inc).2 = some hs) :
    hs.length ≤ e.max_hashtags ∧
    ∃ cfg, get_platform e target = some cfg ∧ ∃ t, hs ++ t = cfg.hashtags := by
  cases hcfg : get_platform e target with
  | none => simp [select_platform, hcfg] at h
  | some cfg =>
    have hghs : get_platform_hashtags e target = cfg.hashtags := by
      simp [get_platform_hashtags, hcfg]
    cases inc with
    | false => simp [select_platform, hcfg] at h
    | true =>
      by_cases hne : cfg.hashtags = []
      · simp [select_platform, hcfg, hghs, hne] at h
      · have hh : hs = cfg.hashtags.take e.max_hashtags := by
          simp [select_platform, hcfg, hghs, hne] at h
          exact h.symm
        subst hh
        exact ⟨List.length_take_le _ _, cfg, rfl,
          cfg.hashtags.drop e.max_hashtags, List.take_append_drop _ _⟩

theorem hashtags_capped_initial_segment_witness :
    (select_platform sampleEngine "twitter" true).2 =
      some ["buildinpublic", "opensource"] ∧
    ((["buildinpublic", "opensource"] : List String).length ≤
      sampleEngine.max_hashtags ∧
     ∃ cfg, get_platform sampleEngine "twitter" = some cfg ∧
       ∃ t, ["buildinpublic", "opensource"] ++ t = cfg.hashtags) :=
  ⟨by decide, hashtags_capped_initial_segment sampleEngine "twitter" true
    ["buildinpublic", "opensource"] (by decide)⟩

theorem addExt_ne_nil (m : List (String × Nat)) (e : String) :
    addExt m e ≠ [] := by
  cases m with
  | nil => simp [addExt]
  | cons q qs => by_cases h : q.1 = e <;> simp [addExt, h]

theorem buildFileTypes_ne_nil (files : List String) (h : files ≠ []) :
    buildFileTypes files ≠ [] := by
  cases files with
  | nil => exact absurd rfl h
  | cons f fs =>
    suffices hgen : ∀ (l : List String) (m : List (String × Nat)), m ≠ [] →
        l.foldl (fun m f => addExt m (extCategory f)) m ≠ [] by
      have hstep : buildFileTypes (f :: fs) =
          fs.foldl (fun m f => addExt m (extCategory f))
            (addExt [] (extCategory f)) := rfl
      rw [hstep]
      exact hgen fs _ (addExt_ne_nil _ _)
    intro l
    induction l with
    | nil => intro m hm; exact hm
    | cons x xs ih => intro m _; exact ih _ (addExt_ne_nil _ _)

/-- Claim C3: every summary opens with the file-count clause (rendered
`"0 files changed"` for an empty list and with the singular form for exactly
one file), and a `"types:"` clause occurs in the summary exactly when the
file list is non-empty. -/
theorem summary_count_and_types_clauses (files : List String) (ins del : Nat) :
    (∃ t, (create_diff_summary files ins del).data =
      (fileCountClause files.length).data ++ t) ∧
    fileCountClause 0 = "0 files changed" ∧
    fileCountClause 1 = "1 file changed" ∧
    ((∃ s t, (create_diff_summary files ins del).data =
      s ++ ("types:".data ++ t)) ↔ files ≠ []) := by
  have hparts : diffSummaryParts files ins del =
      fileCountClause files.length ::
        ((if buildFileTypes files ≠ [] then [typesClause (buildFileTypes files)]
          else []) ++
         (if ins ≠ 0 ∨ del ≠ 0 then [changesClause ins del] else [])) := by
    unfold diffSummaryParts
    simp
  refine ⟨?_, by decide, by decide, ?_, ?_⟩
  · unfold create_diff_summary
    rw [hparts]
    exact joinSep_head_data " | " _ _
  · rintro ⟨s, t, hst⟩ rfl
    have hcolon : ':' ∈ (create_diff_summary [] ins del).data := by
      rw [hst]
      exact List.mem_append.mpr (Or.inr (List.mem_append.mpr (Or.inl (by decide))))
    exact summary_empty_no_colon ins del ':' hcolon rfl
  · intro hne
    have hb := buildFileTypes_ne_nil files hne
    have hmem : typesClause (buildFileTypes files) ∈ diffSummaryParts files ins del := by
      rw [hparts]
      refine List.mem_cons.mpr (Or.inr (List.mem_append.mpr (Or.inl ?_)))
      rw [if_pos hb]
      exact List.mem_singleton.mpr rfl
    obtain ⟨s, t, hst⟩ := joinSep_mem_data " | " _ _ hmem
    have hdata : (typesClause (buildFileTypes files)).data =
        "types:".data ++ (' ' ::
          (joinSep ", " ((top_types (buildFileTypes files)).map typeItem)).data) := by
      unfold typesClause
      rw [String.data_append]
      rfl
    rw [hdata] at hst
    refine ⟨s, ' ' ::
      ((joinSep ", " ((top_types (buildFileTypes files)).map typeItem)).data ++ t), ?_⟩
    unfold create_diff_summary
    rw [hst]
    simp

theorem summary_count_and_types_clauses_witness :
    (∃ t, (create_diff_summary ["a.py"] 2 0).data =
      (fileCountClause (["a.py"] : List String).length).data ++ t) ∧
    fileCountClause 0 = "0 files changed" ∧
    fileCountClause 1 = "1 file changed" ∧
    ((∃ s t, (create_diff_summary ["a.py"] 2 0).data =
      s ++ ("types:".data ++ t)) ↔ (["a.py"] : List String) ≠ []) :=
  summary_count_and_types_clauses ["a.py"] 2 0

/-- Claim C4: the rendered types clause lists at most three extension
categories, their counts sum to at most the number of changed files, the
categories are in descending-count order, and equal counts keep the
first-encounter order of the extensions in the file list. -/
theorem top_types_bounded_and_ordered (files : List String) :
    (top_types (buildFileTypes files)).length ≤ 3 ∧
    ((top_types (buildFileTypes files)).map (fun q => q.2)).sum ≤ files.length ∧
    (top_types (buildFileTypes files)).Pairwise (fun a b => b.2 ≤ a.2) ∧
    ∀ k, (sortByCountDesc (buildFileTypes files)).filter (fun q => q.2 = k) =
      (buildFileTypes files).filter (fun q => q.2 = k) := by
  refine ⟨List.length_take_le _ _, ?_, ?_, fun k => filter_sortByCountDesc k _⟩
  · unfold top_types
    calc (((sortByCountDesc (buildFileTypes files)).take 3).map
          (fun q => q.2)).sum
        = (((sortByCountDesc (buildFileTypes files)).map
            (fun q => q.2)).take 3).sum := by rw [List.map_take]
      _ ≤ ((sortByCountDesc (buildFileTypes files)).map (fun q => q.2)).sum :=
          sum_take_le _ _
      _ = ((buildFileTypes files).map (fun q => q.2)).sum :=
          sum_map_sortByCountDesc _
      _ = files.length := sum_map_buildFileTypes files
  · exact List.Pairwise.sublist (List.take_sublist 3 _)
      (pairwise_sortByCountDesc _)

theorem top_types_bounded_and_ordered_witness :
    (top_types (buildFileTypes ["a.py", "b.md", "c.py", "d.rs", "e.txt"])).length ≤ 3 ∧
    ((top_types (buildFileTypes ["a.py", "b.md", "c.py", "d.rs", "e.txt"])).map
      (fun q => q.2)).sum ≤ (["a.py", "b.md", "c.py", "d.rs", "e.txt"] : List String).length ∧
    (top_types (buildFileTypes ["a.py", "b.md", "c.py", "d.rs", "e.txt"])).Pairwise
      (fun a b => b.2 ≤ a.2) ∧
    ∀ k, (sortByCountDesc (buildFileTypes ["a.py", "b.md", "c.py", "d.rs", "e.txt"])).filter
        (fun q => q.2 = k) =
      (buildFileTypes ["a.py", "b.md", "c.py", "d.rs", "e.txt"]).filter (fun q => q.2 = k) :=
  top_types_bounded_and_ordered ["a.py", "b.md", "c.py", "d.rs", "e.txt"]
